import Mathlib

/-!
# LambdaWatch — verification of the capture-batch-ship core

Shallow embedding of the LambdaWatch log-shipping agent (Go) in Lean 4,
together with proofs about the embedded operations.

Conventions of the embedding:
* Go byte strings are modelled as Lean `String`s; `len(s)` maps to
  `String.length` (the source only measures and slices ASCII content in the
  properties considered here).
* Go `int` / `int64` are modelled as `Int` (`Nat` where the source value is
  a count that is provably non-negative).
* Go `map[string]string` is modelled as an association list
  `List (String × String)` with first-match lookup; insertion that may
  overwrite a key prepends the new binding.
* A Go runtime panic (negative `make` length, indexing an empty slice) is
  modelled as `Option.none` propagating outward.
* Concurrency is serialised: every buffer operation happens under the
  buffer mutex in the source, so the embedding is a sequential state
  machine over the locked state.
-/

namespace LambdaWatch

/-- `buffer.LogEntry` (internal/buffer): a single normalised log record. -/
structure LogEntry where
  timestamp : Int
  message : String
  logType : String
  requestID : String
  deriving Repr, DecidableEq

/-- `LogEntry.Size`: `len(Message) + len(Type) + len(RequestID) + 8`. -/
def LogEntry.size (e : LogEntry) : Nat :=
  e.message.length + e.logType.length + e.requestID.length + 8

/-- Sum of entry sizes, as the Go `int` byte accounting. -/
def sumSizes (l : List LogEntry) : Int :=
  (l.map fun e => (e.size : Int)).sum

/-- `buffer.Buffer`: the bounded FIFO with byte accounting (the mutex and
the ready channel are serialised away by the embedding). -/
structure Buffer where
  entries : List LogEntry
  maxSize : Nat
  byteSize : Int
  closed : Bool
  deriving Repr, DecidableEq

/-- `buffer.New(maxSize)`. -/
def Buffer.new (maxSize : Nat) : Buffer :=
  { entries := [], maxSize := maxSize, byteSize := 0, closed := false }

/-- The drop-oldest step shared by `Add` and `AddBatch`:
`b.byteSize -= b.entries[0].Size(); b.entries = b.entries[1:]`.
Indexing `entries[0]` on an empty slice panics, modelled as `none`. -/
def Buffer.dropOldest (b : Buffer) : Option Buffer :=
  match b.entries with
  | [] => none
  | e :: rest =>
      some { b with entries := rest, byteSize := b.byteSize - (e.size : Int) }

/-- The append step shared verbatim by `Add` and `AddBatch`: drop the
oldest entry when at capacity, append `e`, add its size. -/
def Buffer.addStep (b : Buffer) (e : LogEntry) : Option Buffer :=
  (if b.entries.length ≥ b.maxSize then b.dropOldest else some b).map
    fun b1 =>
      { b1 with entries := b1.entries ++ [e],
                byteSize := b1.byteSize + (e.size : Int) }

/-- `Buffer.Add`: appends one entry with drop-oldest on overflow; returns
whether the buffer is at capacity after the append. -/
def Buffer.add (b : Buffer) (e : LogEntry) : Option (Bool × Buffer) :=
  if b.closed then some (false, b)
  else (b.addStep e).map fun b2 => (decide (b2.entries.length ≥ b2.maxSize), b2)

/-- The loop body of `Buffer.AddBatch` over the remaining input entries. -/
def Buffer.addBatchAux (b : Buffer) : List LogEntry → Option Buffer
  | [] => some b
  | e :: es => (b.addStep e).bind fun b2 => b2.addBatchAux es

/-- `Buffer.AddBatch` (the ready-signal emission carries no buffer state
and is not modelled). -/
def Buffer.addBatch (b : Buffer) (es : List LogEntry) : Option Buffer :=
  if b.closed then some b else b.addBatchAux es

/-- `Buffer.Flush(batchSize)`: returns and removes up to `batchSize` head
entries.  `make([]LogEntry, count)` with a negative `count` panics
(`none`). -/
def Buffer.flush (b : Buffer) (batchSize : Int) : Option (List LogEntry × Buffer) :=
  if b.entries.length = 0 then some ([], b)
  else
    let count : Int :=
      if batchSize > (b.entries.length : Int) then (b.entries.length : Int)
      else batchSize
    if count < 0 then none
    else
      let n := count.toNat
      some (b.entries.take n,
        { b with entries := b.entries.drop n,
                 byteSize := b.byteSize - sumSizes (b.entries.take n) })

/-- The scan loop of `Buffer.FlushBySize`: walks head entries accumulating
`count` and `bytes`; stops at `batchSize` entries or when adding the next
entry would exceed `maxBytes` (unless nothing was taken yet). In the
source the loop index always equals `count`, so the scan is a recursion
over the entry list. -/
def fbsScan : List LogEntry → Int → Int → Nat → Int → Nat × Int
  | [], _, _, count, bytes => (count, bytes)
  | e :: rest, batchSize, maxBytes, count, bytes =>
      if ¬ ((count : Int) < batchSize) then (count, bytes)
      else if bytes + (e.size : Int) > maxBytes ∧ count > 0 then (count, bytes)
      else fbsScan rest batchSize maxBytes (count + 1) (bytes + (e.size : Int))

/-- `Buffer.FlushBySize(batchSize, maxBytes)`. -/
def Buffer.flushBySize (b : Buffer) (batchSize maxBytes : Int) :
    List LogEntry × Buffer :=
  if b.entries.length = 0 then ([], b)
  else
    let cb := fbsScan b.entries batchSize maxBytes 0 0
    if cb.1 = 0 then ([], b)
    else
      (b.entries.take cb.1,
        { b with entries := b.entries.drop cb.1,
                 byteSize := b.byteSize - cb.2 })

/-- `Buffer.Drain`: returns everything, closes the buffer. -/
def Buffer.drain (b : Buffer) : List LogEntry × Buffer :=
  (b.entries,
    { entries := [], maxSize := b.maxSize, byteSize := 0, closed := true })

/-- `Buffer.Len()`. -/
def Buffer.lenQ (b : Buffer) : Nat := b.entries.length

/-- `Buffer.ByteSize()`. -/
def Buffer.byteSizeQ (b : Buffer) : Int := b.byteSize

/-- One buffer operation of the public surface. -/
inductive BufOp where
  | add (e : LogEntry)
  | addBatch (es : List LogEntry)
  | flush (n : Int)
  | flushBySize (n m : Int)
  | drain

/-- Apply one operation, keeping only the resulting buffer state
(`none` = the operation panicked). -/
def Buffer.applyOp (b : Buffer) : BufOp → Option Buffer
  | .add e => (b.add e).map Prod.snd
  | .addBatch es => b.addBatch es
  | .flush n => (b.flush n).map Prod.snd
  | .flushBySize n m => some (b.flushBySize n m).2
  | .drain => some b.drain.2

/-- Run a sequence of operations; `none` as soon as one panics. -/
def Buffer.runOps (b : Buffer) : List BufOp → Option Buffer
  | [] => some b
  | op :: ops => (b.applyOp op).bind fun b1 => b1.runOps ops

/-- Stated from the spec's words for `FlushBySize` (§4.1): take head
entries while `count < n_max` and while the accumulated bytes plus the
next size stay within `bytes_max`, except that the first entry is taken
even when it alone exceeds the budget.  Used to compare the code's scan
against the specified greedy prefix. -/
def specFlushCount : List LogEntry → Int → Int → Nat → Int → Nat
  | [], _, _, count, _ => count
  | e :: rest, nmax, bytesMax, count, acc =>
      if (count : Int) < nmax ∧ (acc + (e.size : Int) ≤ bytesMax ∨ count = 0) then
        specFlushCount rest nmax bytesMax (count + 1) (acc + (e.size : Int))
      else count

/-- A Go `map[string]string` as an association list; lookup takes the
first binding for a key. -/
def Labels := List (String × String)

/-- Map lookup `m[k]`. -/
def lookupLabel (m : Labels) (k : String) : Option String :=
  (List.find? (fun p => p.1 = k) m).map Prod.snd

/-- Map update `m[k] = v`, modelled by prepending (first match wins). -/
def setLabel (m : Labels) (k v : String) : Labels :=
  ((k, v) :: m : List (String × String))

/-- `loki.Stream` (internal/loki/types.go): one stream of a push request:
a label map plus `[timestamp, line]` value pairs. -/
structure Stream where
  stream : Labels
  values : List (List String)

/-- `loki.PushRequest` (internal/loki/types.go). -/
structure PushRequest where
  streams : List Stream

/-- `loki.NewPushRequest`. -/
def NewPushRequest (labels : Labels) (values : List (List String)) : PushRequest :=
  { streams := [{ stream := labels, values := values }] }

/-- `loki.Batch` (internal/loki/batch.go). -/
structure Batch where
  entries : List LogEntry
  labels : Labels
  groupByRequestID : Bool

/-- `loki.NewBatch(labels, groupByRequestID)`. -/
def NewBatch (labels : Labels) (groupByRequestID : Bool) : Batch :=
  { entries := [], labels := labels, groupByRequestID := groupByRequestID }

/-- `Batch.Add`. -/
def Batch.addEntries (b : Batch) (es : List LogEntry) : Batch :=
  { b with entries := b.entries ++ es }

/-- `strconv.FormatInt(x, 10)`: the decimal string of `x`. -/
def formatInt (x : Int) : String := Int.repr x

/-- The `[timestamp, line]` pair built for one entry:
`tsNano := entry.Timestamp * 1000000; values[i] = []string{ts, entry.Message}`. -/
def entryValue (e : LogEntry) : List String :=
  [formatInt (e.timestamp * 1000000), e.message]

/-- `Batch.toSingleStreamRequest`: all entries in one stream under the
batch labels. -/
def Batch.toSingleStreamRequest (b : Batch) : PushRequest :=
  NewPushRequest b.labels (b.entries.map entryValue)

/-- The effective grouping key of an entry: `"unknown"` when the request
id is empty (from `toGroupedStreamRequest`). -/
def effReqID (e : LogEntry) : String :=
  if e.requestID = "" then "unknown" else e.requestID

/-- Recursion worker for `firstAppearance`; the fuel only bounds the
recursion depth and is supplied as the input length, which never
increases along the recursion. -/
def firstAppearanceAux : Nat → List String → List String
  | _, [] => []
  | 0, _ :: _ => []
  | fuel + 1, x :: xs => x :: firstAppearanceAux fuel (xs.filter fun y => y ≠ x)

/-- Distinct elements in order of first appearance (the `order` slice of
`toGroupedStreamRequest`). -/
def firstAppearance (l : List String) : List String :=
  firstAppearanceAux l.length l

/-- The stream built for one request-id group in
`Batch.toGroupedStreamRequest`: base labels plus a `request_id` label
unless the group is `"unknown"`. -/
def groupStream (labels : Labels) (entries : List LogEntry) (reqID : String) : Stream :=
  { stream := if reqID ≠ "unknown" then setLabel labels "request_id" reqID else labels,
    values := entries.map entryValue }

/-- `Batch.toGroupedStreamRequest`: entries grouped into one stream per
request id, in order of first appearance. -/
def Batch.toGroupedStreamRequest (b : Batch) : PushRequest :=
  { streams :=
      (firstAppearance (b.entries.map effReqID)).map fun reqID =>
        groupStream b.labels (b.entries.filter fun e => effReqID e = reqID) reqID }

/-- `Batch.ToPushRequest`: `nil` (`none`) for an empty batch, else the
single-stream or the grouped request according to `groupByRequestID`. -/
def Batch.toPushRequest (b : Batch) : Option PushRequest :=
  if b.entries.length = 0 then none
  else if ¬ b.groupByRequestID then some b.toSingleStreamRequest
  else some b.toGroupedStreamRequest

/-- Modelled from the spec (§4.4.1 per-entry line construction):
`injectRequestID(message, requestID)` of the single-stream batch variant.
The function is present in the repository only through its unit tests
(`TestInjectRequestID_*` in internal/loki/batch_test.go); the definition
follows the spec's words, which agree with every test vector: for an
empty id return the message unchanged; if the message trimmed of leading
whitespace starts with an opening brace, insert the `request_id` field
right after the brace with a comma iff the remainder does not start with
a closing brace; otherwise prepend the bracketed marker. -/
def injectRequestID (message requestID : String) : String :=
  if requestID = "" then message
  else
    match message.toList.dropWhile Char.isWhitespace with
    | c :: rest =>
        if c = Char.ofNat 123 then
          "\x7b\"request_id\":\"" ++ requestID ++ "\"" ++
            ((if (rest.dropWhile Char.isWhitespace).head? = some (Char.ofNat 125)
              then "" else ",") ++ String.mk rest)
        else "[request_id=" ++ requestID ++ "] " ++ message
    | [] => "[request_id=" ++ requestID ++ "] " ++ message

/-- Modelled from the spec (§4.4.1 single-stream policy): the
single-stream bundle assembly of the batch variant that applies
`injectRequestID` per entry, present in the repository only through its
tests (`TestBatch_SingleStream_InjectsRequestID`). -/
def toSingleStreamInjected (labels : Labels) (entries : List LogEntry) : PushRequest :=
  NewPushRequest labels
    (entries.map fun e =>
      [formatInt (e.timestamp * 1000000), injectRequestID e.message e.requestID])

/-- The telemetry receiver's `parseTimestamp` (internal/telemetryapi
server): `time.Parse(time.RFC3339Nano, s)` followed by `t.UnixMilli()`.
Modelled on the parsed instant, given as Unix seconds plus the
nanosecond-of-second component (`0 ≤ nsec < 10⁹`):
`UnixMilli = sec*1000 + nsec/10⁶`. -/
def parseTimestampMilli (sec : Int) (nsec : Nat) : Int :=
  sec * 1000 + (nsec : Int) / 1000000

/-- One chunk line of `splitMessage`:
`fmt.Sprintf("[chunk %d/%d] %s", k, n, slice)`. -/
def chunkMarker (k n : Nat) (slice : List Char) : String :=
  "[chunk " ++ Nat.repr k ++ "/" ++ Nat.repr n ++ "] " ++ String.mk slice

/-- Recursion worker for `splitChunks`: take `effM1 + 1` characters per
chunk (the effective size is ≥ 100, carried as predecessor + 1 so each
step visibly consumes input).  The fuel only bounds the recursion depth
and is supplied as the input length, which strictly decreases. -/
def splitChunksAux (effM1 : Nat) (numChunks : Nat) :
    Nat → List Char → Nat → List String
  | _, [], _ => []
  | 0, _ :: _, _ => []
  | fuel + 1, c :: rest, k =>
      chunkMarker k numChunks ((c :: rest).take (effM1 + 1)) ::
        splitChunksAux effM1 numChunks fuel ((c :: rest).drop (effM1 + 1)) (k + 1)

/-- The chunking loop of `splitMessage`. -/
def splitChunks (effM1 : Nat) (numChunks : Nat) (l : List Char) (k : Nat) :
    List String :=
  splitChunksAux effM1 numChunks l.length l k

/-- `splitMessage(message, maxSize)` (telemetryapi server; the identical
function also appears in internal/logsapi/server.go): splits an
oversized message into marker-prefixed chunks of the effective size
`max(100, maxSize − 20)`. -/
def splitMessage (message : String) (maxSize : Int) : List String :=
  if (message.length : Int) ≤ maxSize then [message]
  else
    let effectiveSize : Int := if maxSize - 20 < 100 then 100 else maxSize - 20
    let eff : Nat := effectiveSize.toNat
    let numChunks : Nat := (message.length + eff - 1) / eff
    splitChunks (eff - 1) numChunks message.toList 1

/-- The function/extension branch of the receiver's per-event handling
(telemetryapi `handleTelemetry`): one entry per message, or one entry per
chunk with the timestamp incremented by the chunk index
(`Timestamp: ts + int64(i)`). -/
def receiverEntries (maxLineSize : Int) (ts : Int) (etype requestID message : String) :
    List LogEntry :=
  if maxLineSize > 0 ∧ (message.length : Int) > maxLineSize then
    (splitMessage message maxLineSize).enum.map fun ic =>
      { timestamp := ts + (ic.1 : Int), message := ic.2,
        logType := etype, requestID := requestID }
  else
    [{ timestamp := ts, message := message, logType := etype, requestID := requestID }]

/-- The slice of `config.Config` consumed by `Manager.flushBatch`
(internal/extension/lifecycle.go), plus the already-assembled labels. -/
structure FlushCfg where
  batchSize : Int
  maxBatchSizeBytes : Int
  labels : Labels
  extractRequestID : Bool

/-- `Manager.flushBatch`: pull one batch from the buffer — by size when a
byte limit is configured, else by count — and build the push request with
`loki.NewBatch(m.labels, m.cfg.ExtractRequestID)`.  Returns the request
(`none` for an empty pull), the entry count, and the updated buffer;
outer `none` is the panic of `Flush` on a negative batch size. -/
def flushBatchM (cfg : FlushCfg) (buf : Buffer) :
    Option (Option PushRequest × Nat × Buffer) :=
  if cfg.maxBatchSizeBytes > 0 then
    let eb := buf.flushBySize cfg.batchSize cfg.maxBatchSizeBytes
    some (((NewBatch cfg.labels cfg.extractRequestID).addEntries eb.1).toPushRequest,
      eb.1.length, eb.2)
  else
    (buf.flush cfg.batchSize).map fun eb =>
      (((NewBatch cfg.labels cfg.extractRequestID).addEntries eb.1).toPushRequest,
        eb.1.length, eb.2)

/-- The loop of `Manager.criticalFlush`: repeat while `remaining > 0`;
pull a batch, break if it is empty, subtract its count, push it, break on
push error.  `ok i` tells whether the i-th `PushCritical` succeeds.  The
fuel argument only bounds the recursion; `criticalFlushM` supplies enough
fuel that it is never exhausted (each iteration removes ≥ 1 entry from
`remaining`). -/
def criticalFlushAux (cfg : FlushCfg) (ok : Nat → Bool) :
    Nat → Int → Nat → Buffer → Option (List (PushRequest × Nat) × Buffer)
  | 0, _, _, buf => some ([], buf)
  | fuel + 1, remaining, idx, buf =>
      if remaining ≤ 0 then some ([], buf)
      else
        match flushBatchM cfg buf with
        | none => none
        | some (req, n, buf1) =>
            match req with
            | none => some ([], buf1)
            | some r =>
                if ok idx then
                  (criticalFlushAux cfg ok fuel (remaining - (n : Int)) (idx + 1) buf1).map
                    fun rb => ((r, n) :: rb.1, rb.2)
                else some ([(r, n)], buf1)

/-- `Manager.criticalFlush`: snapshot `remaining := buffer.Len()` first,
then drain batches until the snapshot is exhausted.  The result is the
sequence of pushes handed to the transport (each with its entry count)
and the final buffer. -/
def criticalFlushM (cfg : FlushCfg) (ok : Nat → Bool) (buf : Buffer) :
    Option (List (PushRequest × Nat) × Buffer) :=
  criticalFlushAux cfg ok (buf.lenQ + 1) (buf.lenQ : Int) 0 buf

/-- One sink response as seen by `Client.doPush`: a transport-level
failure of the HTTP round-trip, or an HTTP status code. -/
inductive SinkResp where
  | transportErr
  | status (code : Nat)

/-- The transport's internal error value: `*retryableError` wraps causes
that may be retried; everything else is terminal. -/
inductive PushErr where
  | retryable (msg : String)
  | terminal (msg : String)

/-- The message carried by either error kind (`Error()`). -/
def PushErr.msg : PushErr → String
  | .retryable m => m
  | .terminal m => m

/-- `fmt.Errorf("push failed with status %d: %s", ...)` — the response
body is not modelled. -/
def statusMsg (code : Nat) : String :=
  "push failed with status " ++ Nat.repr code

/-- `Client.doPush` (internal/loki client): transport errors are
retryable; 2xx succeeds; 429 and ≥ 500 are retryable; any other status is
terminal. -/
def doPush (resp : SinkResp) : Option PushErr :=
  match resp with
  | .transportErr => some (.retryable "request failed")
  | .status c =>
      if 200 ≤ c ∧ c < 300 then none
      else if c = 429 ∨ 500 ≤ c then some (.retryable (statusMsg c))
      else some (.terminal (statusMsg c))

/-- Push outcome surfaced to the caller. -/
inductive PushOutcome where
  | ok
  | err (msg : String)
  deriving DecidableEq, Repr

/-- The attempt loop of `Client.pushWithRetry`:
`for attempt := 0; attempt <= retries; attempt++`, so `retries + 1`
attempts are available; the sink is asked at each attempt index; the
returned `Nat` counts HTTP attempts actually made.  Backoff sleeps and
context cancellation carry no state in this model. -/
def pushAttempts (sink : Nat → SinkResp) (retries : Nat) :
    Nat → Nat → String → PushOutcome × Nat
  | 0, attempt, lastErr =>
      (.err ("push failed after " ++ Nat.repr retries ++ " retries: " ++ lastErr),
        attempt)
  | fuel + 1, attempt, _ =>
      match doPush (sink attempt) with
      | none => (.ok, attempt + 1)
      | some (.terminal m) => (.err m, attempt + 1)
      | some (.retryable m) => pushAttempts sink retries fuel (attempt + 1) m

/-- The retry budgets of the two tiers (`maxRetries`,
`criticalRetries`). -/
structure ClientCfg where
  maxRetries : Nat
  criticalRetries : Nat

/-- `Client.push`: empty requests (nil or no streams) succeed without
contacting the sink; otherwise run the retry loop at the tier's budget.
`isCritical = false` is `Push`, `isCritical = true` is `PushCritical`. -/
def clientPush (cfg : ClientCfg) (req : Option PushRequest) (sink : Nat → SinkResp)
    (isCritical : Bool) : PushOutcome × Nat :=
  match req with
  | none => (.ok, 0)
  | some r =>
      if r.streams.length = 0 then (.ok, 0)
      else
        let retries := if isCritical then cfg.criticalRetries else cfg.maxRetries
        pushAttempts sink retries (retries + 1) 0 ""

/-- `config.Config` (internal/config/config.go). -/
structure Config where
  lokiEndpoint : String
  lokiUsername : String
  lokiPassword : String
  lokiAPIKey : String
  lokiTenantID : String
  batchSize : Int
  maxBatchSizeBytes : Int
  flushIntervalMs : Int
  idleFlushMultiplier : Int
  maxRetries : Int
  criticalFlushRetries : Int
  enableGzip : Bool
  compressionThreshold : Int
  bufferSize : Int
  maxLineSize : Int
  extractRequestID : Bool
  labels : Labels

/-- `strconv.Atoi` on a digit run. -/
def atoiDigits : List Char → Option Nat → Option Nat
  | [], acc => acc
  | c :: rest, acc =>
      if c.isDigit then
        atoiDigits rest (some ((acc.getD 0) * 10 + (c.toNat - 48)))
      else none

/-- `strconv.Atoi`: optional sign then one or more decimal digits
(overflow of the 64-bit range is not modelled; no claim depends on it). -/
def goAtoi (s : String) : Option Int :=
  match s.toList with
  | [] => none
  | '-' :: rest => (atoiDigits rest none).map fun n => -(n : Int)
  | '+' :: rest => (atoiDigits rest none).map fun n => (n : Int)
  | l => (atoiDigits l none).map fun n => (n : Int)

/-- `strconv.ParseBool`: the exact accepted spellings. -/
def goParseBool (s : String) : Option Bool :=
  if s = "1" ∨ s = "t" ∨ s = "T" ∨ s = "TRUE" ∨ s = "true" ∨ s = "True" then some true
  else if s = "0" ∨ s = "f" ∨ s = "F" ∨ s = "FALSE" ∨ s = "false" ∨ s = "False" then
    some false
  else none

/-- `getEnvInt`: unset (`""`) or unparsable values fall back to the
default.  The environment is modelled as Go's `os.Getenv`: a total map
to strings, `""` for unset. -/
def getEnvInt (env : String → String) (key : String) (defaultVal : Int) : Int :=
  if env key = "" then defaultVal
  else match goAtoi (env key) with
    | some i => i
    | none => defaultVal

/-- `getEnvBool`: same fallback discipline via `strconv.ParseBool`. -/
def getEnvBool (env : String → String) (key : String) (defaultVal : Bool) : Bool :=
  if env key = "" then defaultVal
  else match goParseBool (env key) with
    | some b => b
    | none => defaultVal

/-- JSON insignificant whitespace. -/
def isJsonWs (c : Char) : Bool :=
  c = ' ' ∨ c = '\t' ∨ c = '\n' ∨ c = '\r'

/-- Skip insignificant whitespace. -/
def skipWs : List Char → List Char
  | [] => []
  | c :: rest => if isJsonWs c then skipWs rest else c :: rest

/-- Scan the body of a JSON string up to the closing quote (escape
sequences are not modelled: no claim input uses them, and a backslash
makes this model reject where Go may accept — the difference is not
load-bearing for any claim). -/
def scanJString : List Char → Option (List Char × List Char)
  | [] => none
  | c :: rest =>
      if c = '"' then some ([], rest)
      else if c = '\\' then none
      else (scanJString rest).map fun p => ((c :: p.1 : List Char), p.2)

/-- Parse one JSON string token (expects the opening quote). -/
def parseJString (l : List Char) : Option (String × List Char) :=
  match l with
  | '"' :: rest => (scanJString rest).map fun p => (String.mk p.1, p.2)
  | _ => none

/-- The member list of a flat JSON object of string values, after the
opening brace has been consumed and a first member is expected. -/
def parseJMembers : Nat → List Char → Option (List (String × String) × List Char)
  | 0, _ => none
  | fuel + 1, l => do
      let (k, r1) ← parseJString (skipWs l)
      let r2 := skipWs r1
      match r2 with
      | ':' :: r3 => do
          let (v, r4) ← parseJString (skipWs r3)
          let r5 := skipWs r4
          match r5 with
          | ',' :: r6 => do
              let (ps, r7) ← parseJMembers fuel r6
              pure (((k, v) :: ps : List (String × String)), r7)
          | c :: r6 =>
              if c = Char.ofNat 125 then pure ([(k, v)], r6) else none
          | [] => none
      | _ => none

/-- `json.Unmarshal` of a `map[string]string`, restricted to the flat
string-object fragment the configuration uses: surrounding whitespace, an
object of string members, nothing trailing.  Returns `none` exactly when
Go's unmarshal would return an error on this fragment. -/
def parseLabelsJson (s : String) : Option (List (String × String)) := do
  let l := skipWs s.toList
  match l with
  | c :: r1 =>
      if c = Char.ofNat 123 then
        match skipWs r1 with
        | d :: r2 =>
            if d = Char.ofNat 125 then
              match skipWs r2 with
              | [] => pure []
              | _ => none
            else do
              let (ps, r3) ← parseJMembers (r1.length + 1) r1
              match skipWs r3 with
              | [] => pure ps
              | _ => none
        | [] => none
      else none
  | [] => none

/-- The fixed defaults of `config.Load` before the labels step. -/
def loadBase (env : String → String) : Config :=
  { lokiEndpoint := env "LOKI_URL"
    lokiUsername := env "LOKI_USERNAME"
    lokiPassword := env "LOKI_PASSWORD"
    lokiAPIKey := env "LOKI_API_KEY"
    lokiTenantID := env "LOKI_TENANT_ID"
    batchSize := getEnvInt env "LOKI_BATCH_SIZE" 100
    maxBatchSizeBytes := getEnvInt env "LOKI_MAX_BATCH_SIZE_BYTES" (5 * 1024 * 1024)
    flushIntervalMs := getEnvInt env "LOKI_FLUSH_INTERVAL_MS" 1000
    idleFlushMultiplier := getEnvInt env "LOKI_IDLE_FLUSH_MULTIPLIER" 3
    maxRetries := getEnvInt env "LOKI_MAX_RETRIES" 3
    criticalFlushRetries := getEnvInt env "LOKI_CRITICAL_FLUSH_RETRIES" 5
    enableGzip := getEnvBool env "LOKI_ENABLE_GZIP" true
    compressionThreshold := getEnvInt env "LOKI_COMPRESSION_THRESHOLD" 1024
    bufferSize := getEnvInt env "BUFFER_SIZE" 10000
    maxLineSize := getEnvInt env "LOKI_MAX_LINE_SIZE" 204800
    extractRequestID := getEnvBool env "LOKI_EXTRACT_REQUEST_ID" true
    labels := [] }

/-- `config.Load`: every option falls back to its default on an unset or
unparsable value, except the labels map: a set but unparsable
`LOKI_LABELS` propagates the unmarshal error out of `Load`.  A missing
`LOKI_URL` is NOT an error here (the caller in cmd/extension/main.go
checks it after `Load` returns). -/
def Load (env : String → String) : Except String Config :=
  let cfg := loadBase env
  let withLabels : Except String Config :=
    if env "LOKI_LABELS" ≠ "" then
      match parseLabelsJson (env "LOKI_LABELS") with
      | none => .error "invalid character in LOKI_LABELS"
      | some ls => .ok { cfg with labels := ls }
    else .ok cfg
  withLabels.map fun c =>
    if env "SERVICE_NAME" ≠ "" then
      { c with labels := setLabel c.labels "service_name" (env "SERVICE_NAME") }
    else c

/-! ## Concrete inputs used by witnesses and counterexamples -/

/-- A 50-byte entry (42-char message, empty kind and request id). -/
def entry50 : LogEntry :=
  { timestamp := 0, message := String.mk (List.replicate 42 'x'),
    logType := "", requestID := "" }

/-- Ten 50-byte entries in a capacity-100 buffer (the S2 scenario). -/
def tenFiftyBuf : Buffer :=
  { entries := List.replicate 10 entry50, maxSize := 100, byteSize := 500,
    closed := false }

/-- A single 1000-byte entry (992-char message) in a capacity-100 buffer. -/
def oneBigBuf : Buffer :=
  { entries := [{ timestamp := 0, message := String.mk (List.replicate 992 'x'),
                  logType := "", requestID := "" }],
    maxSize := 100, byteSize := 1000, closed := false }

/-- A small concrete entry for flush-count scenarios. -/
def entryTiny : LogEntry :=
  { timestamp := 0, message := "m", logType := "function", requestID := "" }

/-- A JSON-message entry with a request id. -/
def wEntryJson : LogEntry :=
  { timestamp := 1000, message := "\x7b\"level\":\"info\"\x7d",
    logType := "function", requestID := "r1" }

/-- A plain-text entry with a request id. -/
def wEntryPlain : LogEntry :=
  { timestamp := 2000, message := "plain text log",
    logType := "function", requestID := "r2" }

/-- An entry with an empty request id. -/
def wEntryNoID : LogEntry :=
  { timestamp := 3000, message := "no id", logType := "function", requestID := "" }

/-- The three-entry batch of the injection scenario. -/
def wEntries : List LogEntry := [wEntryJson, wEntryPlain, wEntryNoID]

/-- The single stream assembled for `wEntries` with injection. -/
def wInjStream : Stream :=
  { stream := [("source", "lambda")],
    values := wEntries.map fun e =>
      [formatInt (e.timestamp * 1000000), injectRequestID e.message e.requestID] }

/-- `batch_count_limit = 10`, byte cap disabled (the S3 scenario). -/
def critCfg : FlushCfg :=
  { batchSize := 10, maxBatchSizeBytes := 0, labels := [("source", "lambda")],
    extractRequestID := false }

/-- Twenty-five small entries. -/
def entries25 : List LogEntry := List.replicate 25 entryTiny

/-- The buffer state after enqueuing `entries25` into `New(100)`
(each entry is 17 bytes). -/
def buf25 : Buffer :=
  { entries := entries25, maxSize := 100, byteSize := 425, closed := false }

/-- A sink that answers 500 on the first attempt, then 200. -/
def sink500then200 : Nat → SinkResp :=
  fun i => if i = 0 then SinkResp.status 500 else SinkResp.status 200

/-- A sink that always answers 400. -/
def sink400 : Nat → SinkResp := fun _ => SinkResp.status 400

/-- A sink that always answers 500. -/
def sink500 : Nat → SinkResp := fun _ => SinkResp.status 500

/-- The default retry budgets: 3 regular, 5 critical. -/
def wClientCfg : ClientCfg := { maxRetries := 3, criticalRetries := 5 }

/-- A one-stream push request for transport scenarios. -/
def wPushReq : PushRequest :=
  { streams := [{ stream := [("test", "label")],
                  values := [["1234567890", "test message"]] }] }

/-- A 250-character message (oversized for a 100-byte line limit). -/
def msg250 : String := String.mk (List.replicate 250 'a')

/-- An environment with a valid endpoint but unparsable `LOKI_LABELS`. -/
def cexEnv : String → String := fun k =>
  if k = "LOKI_URL" then "https://loki.example.com"
  else if k = "LOKI_LABELS" then "invalid-json" else ""

/-- An environment with invalid numeric/boolean values and no labels. -/
def fallbackEnv : String → String := fun k =>
  if k = "LOKI_BATCH_SIZE" then "not-a-number"
  else if k = "LOKI_ENABLE_GZIP" then "not-a-bool" else ""

/-- Whether `Load` succeeded (a `Bool` so concrete runs can be
evaluated without comparing whole configurations). -/
def loadIsOk : Except String Config → Bool
  | .ok _ => true
  | .error _ => false

/-! ## Supporting lemmas -/

/-- `sumSizes` distributes over append. -/
theorem sumSizes_append (l1 l2 : List LogEntry) :
    sumSizes (l1 ++ l2) = sumSizes l1 + sumSizes l2 := by
  simp [sumSizes]

/-- `sumSizes` of a take/drop split. -/
theorem sumSizes_take_drop (l : List LogEntry) (k : Nat) :
    sumSizes (l.take k) + sumSizes (l.drop k) = sumSizes l := by
  rw [← sumSizes_append, List.take_append_drop]

/-- `sumSizes` of the empty list. -/
theorem sumSizes_nil : sumSizes [] = 0 := rfl

/-- `sumSizes` of a cons. -/
theorem sumSizes_cons (e : LogEntry) (l : List LogEntry) :
    sumSizes (e :: l) = (e.size : Int) + sumSizes l := by
  simp [sumSizes]

/-- Characterization of `Flush` at a non-negative batch size: it returns
`min batchSize length` head entries, drops them, and subtracts their
sizes. -/
theorem flush_nonneg_eq (b : Buffer) (n : Int) (hn : 0 ≤ n) :
    b.flush n = some (b.entries.take (min n.toNat b.entries.length),
      { b with entries := b.entries.drop (min n.toNat b.entries.length),
               byteSize := b.byteSize -
                 sumSizes (b.entries.take (min n.toNat b.entries.length)) }) := by
  unfold Buffer.flush
  by_cases h0 : b.entries.length = 0
  · have hb : b.entries = [] := List.length_eq_zero.mp h0
    cases b with
    | mk es ms bs cl =>
        simp only at hb
        subst hb
        simp [sumSizes]
  · have hcount : (if n > (b.entries.length : Int) then (b.entries.length : Int)
        else n).toNat = min n.toNat b.entries.length := by
      split_ifs with hgt
      · omega
      · omega
    have hnonneg : ¬ ((if n > (b.entries.length : Int) then (b.entries.length : Int)
        else n) < 0) := by
      split_ifs with hgt
      · omega
      · omega
    simp only [h0, if_false, hnonneg, hcount]

/-- The scan of `FlushBySize` computes exactly the spec's greedy count. -/
theorem fbsScan_fst (l : List LogEntry) :
    ∀ (bs mb : Int) (c : Nat) (a : Int),
      (fbsScan l bs mb c a).1 = specFlushCount l bs mb c a := by
  induction l with
  | nil => intro bs mb c a; rfl
  | cons e rest ih =>
      intro bs mb c a
      simp only [fbsScan, specFlushCount]
      by_cases h1 : (c : Int) < bs
      · by_cases h2 : a + (e.size : Int) > mb ∧ c > 0
        · have htail : ¬ (a + (e.size : Int) ≤ mb ∨ c = 0) := by omega
          simp [h1, h2, htail]
        · have htail : a + (e.size : Int) ≤ mb ∨ c = 0 := by
            push_neg at h2
            by_cases hle : a + (e.size : Int) ≤ mb
            · exact Or.inl hle
            · exact Or.inr (by omega)
          simp [h1, h2, htail, ih]
      · simp [h1]

/-- Bounds and byte accounting of the `FlushBySize` scan: the count never
shrinks, grows by at most the list length, and the accumulated bytes are
exactly the sizes of the entries taken. -/
theorem fbsScan_spec (l : List LogEntry) :
    ∀ (bs mb : Int) (c : Nat) (a : Int),
      c ≤ (fbsScan l bs mb c a).1 ∧
      (fbsScan l bs mb c a).1 - c ≤ l.length ∧
      (fbsScan l bs mb c a).2 = a + sumSizes (l.take ((fbsScan l bs mb c a).1 - c)) := by
  induction l with
  | nil =>
      intro bs mb c a
      refine ⟨le_refl c, by simp [fbsScan], ?_⟩
      simp [fbsScan, sumSizes]
  | cons e rest ih =>
      intro bs mb c a
      simp only [fbsScan]
      by_cases h1 : ¬ ((c : Int) < bs)
      · simp only [h1, if_true]
        exact ⟨le_refl c, by simp, by simp [sumSizes]⟩
      · simp only [h1, if_false]
        by_cases h2 : a + (e.size : Int) > mb ∧ c > 0
        · simp only [h2, if_true]
          exact ⟨le_refl c, by simp, by simp [sumSizes]⟩
        · simp only [h2, if_false]
          obtain ⟨ihle, ihlen, ihsum⟩ := ih bs mb (c + 1) (a + (e.size : Int))
          refine ⟨by omega, by simpa using by omega, ?_⟩
          rw [ihsum]
          have hk : (fbsScan rest bs mb (c + 1) (a + (e.size : Int))).1 - c =
              ((fbsScan rest bs mb (c + 1) (a + (e.size : Int))).1 - (c + 1)) + 1 := by
            omega
          rw [hk]
          simp [List.take_succ_cons, sumSizes]
          ring

/-- The buffer bookkeeping invariant: the length is bounded by the
capacity and `byteSize` is the exact sum of entry sizes. -/
def Buffer.accounted (b : Buffer) : Prop :=
  b.entries.length ≤ b.maxSize ∧ b.byteSize = sumSizes b.entries

/-- `addStep` preserves the invariant, the capacity and the closed flag. -/
theorem addStep_pres (b : Buffer) (e : LogEntry) (b1 : Buffer)
    (hacc : b.accounted) (h : b.addStep e = some b1) :
    b1.accounted ∧ b1.maxSize = b.maxSize ∧ b1.closed = b.closed := by
  obtain ⟨es, ms, bs, cl⟩ := b
  obtain ⟨hlen, hbytes⟩ := hacc
  simp only [Buffer.accounted] at hlen hbytes
  simp only [Buffer.addStep, Buffer.dropOldest] at h
  by_cases hfull : es.length ≥ ms
  · cases es with
    | nil =>
        rw [if_pos hfull] at h
        simp at h
    | cons e0 rest =>
        simp only [hfull, if_true, Option.map_some', Option.some.injEq] at h
        subst h
        refine ⟨⟨?_, ?_⟩, rfl, rfl⟩
        · simp only [List.length_append, List.length_singleton]
          simp only [List.length_cons] at hlen
          omega
        · simp only [sumSizes_append, sumSizes_cons, sumSizes_nil] at hbytes ⊢
          omega
  · simp only [hfull, if_false, Option.map_some', Option.some.injEq] at h
    subst h
    refine ⟨⟨?_, ?_⟩, rfl, rfl⟩
    · simp only [List.length_append, List.length_singleton]
      omega
    · simp only [sumSizes_append, sumSizes_cons, sumSizes_nil] at hbytes ⊢
      omega

/-- `addBatchAux` preserves the invariant, capacity and closed flag. -/
theorem addBatchAux_pres (es : List LogEntry) :
    ∀ (b b1 : Buffer), b.accounted → b.addBatchAux es = some b1 →
      b1.accounted ∧ b1.maxSize = b.maxSize ∧ b1.closed = b.closed := by
  induction es with
  | nil =>
      intro b b1 hacc h
      simp only [Buffer.addBatchAux] at h
      cases h
      exact ⟨hacc, rfl, rfl⟩
  | cons e es ih =>
      intro b b1 hacc h
      simp only [Buffer.addBatchAux, Option.bind_eq_some] at h
      obtain ⟨b2, hb2, hrec⟩ := h
      obtain ⟨hacc2, hmax2, hcl2⟩ := addStep_pres b e b2 hacc hb2
      obtain ⟨hacc1, hmax1, hcl1⟩ := ih b2 b1 hacc2 hrec
      exact ⟨hacc1, by omega, by rw [hcl1, hcl2]⟩

/-- Every single operation preserves the invariant and the capacity. -/
theorem applyOp_pres (b : Buffer) (op : BufOp) (b1 : Buffer)
    (hacc : b.accounted) (h : b.applyOp op = some b1) :
    b1.accounted ∧ b1.maxSize = b.maxSize := by
  obtain ⟨hlen, hbytes⟩ := hacc
  cases op with
  | add e =>
      simp only [Buffer.applyOp, Buffer.add] at h
      by_cases hcl : b.closed
      · simp only [hcl, if_true, Option.map_some', Option.some.injEq] at h
        subst h
        exact ⟨⟨hlen, hbytes⟩, rfl⟩
      · simp only [hcl, Bool.false_eq_true, if_false, Option.map_map,
          Option.map_eq_some'] at h
        obtain ⟨b2, hb2, hcomp⟩ := h
        obtain ⟨hacc2, hmax2, _⟩ := addStep_pres b e b2 ⟨hlen, hbytes⟩ hb2
        simp only [Function.comp] at hcomp
        subst hcomp
        exact ⟨hacc2, hmax2⟩
  | addBatch es =>
      simp only [Buffer.applyOp, Buffer.addBatch] at h
      by_cases hcl : b.closed
      · simp only [hcl, if_true] at h
        cases h
        exact ⟨⟨hlen, hbytes⟩, rfl⟩
      · simp only [hcl, if_false] at h
        obtain ⟨hacc1, hmax1, _⟩ := addBatchAux_pres es b b1 ⟨hlen, hbytes⟩ h
        exact ⟨hacc1, hmax1⟩
  | flush n =>
      simp only [Buffer.applyOp, Buffer.flush] at h
      by_cases h0 : b.entries.length = 0
      · simp only [h0, if_true, Option.map_some] at h
        cases h
        exact ⟨⟨hlen, hbytes⟩, rfl⟩
      · simp only [h0, if_false] at h
        by_cases hneg : (if n > (b.entries.length : Int) then (b.entries.length : Int)
            else n) < 0
        · simp [hneg] at h
        · simp only [hneg, if_false, Option.map_some] at h
          cases h
          refine ⟨⟨?_, ?_⟩, rfl⟩
          · simp only [List.length_drop]
            omega
          · have := sumSizes_take_drop b.entries
              (if n > (b.entries.length : Int) then (b.entries.length : Int)
                else n).toNat
            simp only
            rw [hbytes]
            omega
  | flushBySize n m =>
      simp only [Buffer.applyOp, Buffer.flushBySize] at h
      by_cases h0 : b.entries.length = 0
      · simp only [h0, if_true] at h
        cases h
        exact ⟨⟨hlen, hbytes⟩, rfl⟩
      · simp only [h0, if_false] at h
        by_cases hc0 : (fbsScan b.entries n m 0 0).1 = 0
        · simp only [hc0, if_true] at h
          cases h
          exact ⟨⟨hlen, hbytes⟩, rfl⟩
        · simp only [hc0, if_false] at h
          cases h
          obtain ⟨_, _, hsum⟩ := fbsScan_spec b.entries n m 0 0
          refine ⟨⟨?_, ?_⟩, rfl⟩
          · simp only [List.length_drop]
            omega
          · have htd := sumSizes_take_drop b.entries (fbsScan b.entries n m 0 0).1
            simp only
            rw [hbytes]
            simp only [Nat.sub_zero, zero_add] at hsum
            omega
  | drain =>
      simp only [Buffer.applyOp, Buffer.drain] at h
      cases h
      exact ⟨⟨by simp, by simp [sumSizes]⟩, rfl⟩

/-- Operation sequences preserve the invariant and the capacity. -/
theorem runOps_pres (ops : List BufOp) :
    ∀ (b b1 : Buffer), b.accounted → b.runOps ops = some b1 →
      b1.accounted ∧ b1.maxSize = b.maxSize := by
  induction ops with
  | nil =>
      intro b b1 hacc h
      simp only [Buffer.runOps] at h
      cases h
      exact ⟨hacc, rfl⟩
  | cons op ops ih =>
      intro b b1 hacc h
      simp only [Buffer.runOps, Option.bind_eq_some] at h
      obtain ⟨b2, hb2, hrec⟩ := h
      obtain ⟨hacc2, hmax2⟩ := applyOp_pres b op b2 hacc hb2
      obtain ⟨hacc1, hmax1⟩ := ih b2 b1 hacc2 hrec
      exact ⟨hacc1, by omega⟩

/-! ## Claim theorems -/

/-- C6: for every sequence of buffer operations (`Add`, `AddBatch`,
`Flush`, `FlushBySize`, `Drain`) starting from `New(cap)`, every
observable state satisfies `0 ≤ Len() ≤ capacity`, and `ByteSize()`
equals the exact sum of `Size()` over the entries currently held
(drop-oldest on overflow included). -/
theorem buffer_len_and_byte_invariant (cap : Nat) (ops : List BufOp) (b : Buffer)
    (h : (Buffer.new cap).runOps ops = some b) :
    0 ≤ b.lenQ ∧ b.lenQ ≤ cap ∧ b.byteSizeQ = sumSizes b.entries := by
  have hacc0 : (Buffer.new cap).accounted := by
    constructor
    · simp [Buffer.new]
    · simp [Buffer.new, sumSizes]
  obtain ⟨⟨hlen, hbytes⟩, hmax⟩ := runOps_pres ops (Buffer.new cap) b hacc0 h
  refine ⟨Nat.zero_le _, ?_, hbytes⟩
  simp only [Buffer.new] at hmax
  rw [Buffer.lenQ, ← hmax]
  exact hlen

/-- Witness for C6: a concrete run mixing every operation kind (with an
overflow drop) reaches a state satisfying the invariant. -/
theorem buffer_len_and_byte_invariant_witness :
    ((Buffer.new 3).runOps [BufOp.add entryTiny,
        BufOp.addBatch [entryTiny, entryTiny, entryTiny],
        BufOp.flush 2, BufOp.flushBySize 10 1000, BufOp.add entryTiny] =
      some { entries := [entryTiny], maxSize := 3, byteSize := 17,
             closed := false }) ∧
    (0 ≤ ({ entries := [entryTiny], maxSize := 3, byteSize := 17,
            closed := false } : Buffer).lenQ ∧
      ({ entries := [entryTiny], maxSize := 3, byteSize := 17,
         closed := false } : Buffer).lenQ ≤ 3 ∧
      ({ entries := [entryTiny], maxSize := 3, byteSize := 17,
         closed := false } : Buffer).byteSizeQ = sumSizes [entryTiny]) :=
  ⟨by decide,
    buffer_len_and_byte_invariant 3
      [BufOp.add entryTiny, BufOp.addBatch [entryTiny, entryTiny, entryTiny],
        BufOp.flush 2, BufOp.flushBySize 10 1000, BufOp.add entryTiny]
      { entries := [entryTiny], maxSize := 3, byteSize := 17, closed := false }
      (by decide)⟩

/-- C10: `Buffer.Flush` is total only for non-negative batch sizes — on a
non-empty buffer a negative `batchSize` panics (a slice of negative
length is allocated); for `batchSize ≥ 0` it returns exactly
`min batchSize length` head entries in insertion order, removes them and
subtracts their sizes; `Flush(0)` returns an empty batch and leaves the
buffer unchanged. -/
theorem flush_negative_panics_nonneg_takes_min (b : Buffer) (n : Int) :
    (b.entries ≠ [] → n < 0 → b.flush n = none) ∧
    (0 ≤ n → b.flush n = some (b.entries.take (min n.toNat b.entries.length),
      { b with entries := b.entries.drop (min n.toNat b.entries.length),
               byteSize := b.byteSize -
                 sumSizes (b.entries.take (min n.toNat b.entries.length)) })) ∧
    b.flush 0 = some ([], b) := by
  refine ⟨?_, flush_nonneg_eq b n, ?_⟩
  · intro hne hneg
    unfold Buffer.flush
    have h0 : ¬ b.entries.length = 0 := by
      have := List.length_pos.mpr hne
      omega
    have hcount : (if (0 : Int) > (b.entries.length : Int) then (b.entries.length : Int)
        else (0 : Int)) = 0 := by omega
    have : (if n > (b.entries.length : Int) then (b.entries.length : Int) else n) < 0 := by
      split_ifs with hgt
      · omega
      · exact hneg
    simp [h0, this]
  · have := flush_nonneg_eq b 0 (le_refl 0)
    rw [this]
    cases b with
    | mk es ms bs cl => simp [sumSizes]

set_option maxRecDepth 40000 in
/-- Witness for C10: on a concrete two-entry buffer, `Flush(-1)` panics
and `Flush(0)` is the no-op. -/
theorem flush_negative_panics_nonneg_takes_min_witness :
    (tenFiftyBuf.flush (-1) = none) ∧ tenFiftyBuf.flush 0 = some ([], tenFiftyBuf) :=
  ⟨(flush_negative_panics_nonneg_takes_min tenFiftyBuf (-1)).1 (by decide) (by decide),
    (flush_negative_panics_nonneg_takes_min tenFiftyBuf (-1)).2.2⟩

set_option maxRecDepth 40000 in
/-- C5: on a non-empty buffer with `n_max ≥ 1`, `FlushBySize` returns the
non-empty prefix described by the spec's greedy rule (take in order while
`count < n_max` and the byte budget allows, the first entry
unconditionally); concretely, ten 50-byte entries under limits
(count 100, bytes 100) yield exactly 2 entries, and a single 1000-byte
entry yields that 1 entry. -/
theorem flushBySize_greedy_bounded_nonempty (b : Buffer) (n m : Int)
    (hne : b.entries ≠ []) (hn : 1 ≤ n) :
    (b.flushBySize n m).1 = b.entries.take (specFlushCount b.entries n m 0 0) ∧
    (b.flushBySize n m).1 ≠ [] ∧
    (tenFiftyBuf.flushBySize 100 100).1.length = 2 ∧
    (oneBigBuf.flushBySize 100 100).1.length = 1 := by
  have h0 : ¬ b.entries.length = 0 := by
    have := List.length_pos.mpr hne
    omega
  have hcnt : 1 ≤ (fbsScan b.entries n m 0 0).1 := by
    cases hents : b.entries with
    | nil => exact absurd hents hne
    | cons e rest =>
        have h1 : ((0 : Nat) : Int) < n := by omega
        have h2 : ¬ ((0 : Int) + (e.size : Int) > m ∧ (0 : Nat) > 0) := by omega
        have hstep : fbsScan (e :: rest) n m 0 0 =
            fbsScan rest n m 1 ((0 : Int) + (e.size : Int)) := by
          simp only [fbsScan]
          rw [if_neg (by simpa using h1), if_neg h2]
        rw [hstep]
        exact (fbsScan_spec rest n m 1 _).1
  have hne0 : ¬ (fbsScan b.entries n m 0 0).1 = 0 := by omega
  refine ⟨?_, ?_, by decide, by decide⟩
  · unfold Buffer.flushBySize
    simp only [h0, if_false, hne0]
    rw [fbsScan_fst]
  · unfold Buffer.flushBySize
    simp only [h0, if_false, hne0, if_false]
    intro hcontra
    rw [List.take_eq_nil_iff] at hcontra
    rcases hcontra with hzero | hnil
    · exact hne0 hzero
    · exact hne hnil

set_option maxRecDepth 40000 in
/-- Witness for C5: the greedy characterization applied to the concrete
ten-entry buffer of the S2 scenario. -/
theorem flushBySize_greedy_bounded_nonempty_witness :
    (tenFiftyBuf.flushBySize 100 100).1 =
      tenFiftyBuf.entries.take (specFlushCount tenFiftyBuf.entries 100 100 0 0) ∧
    (tenFiftyBuf.flushBySize 100 100).1 ≠ [] :=
  ⟨(flushBySize_greedy_bounded_nonempty tenFiftyBuf 100 100 (by decide) (by decide)).1,
    (flushBySize_greedy_bounded_nonempty tenFiftyBuf 100 100 (by decide) (by decide)).2.1⟩

/-- A two-request-id batch with grouping enabled (the counterexample
input for the single-stream policy). -/
def groupedCexBatch : Batch :=
  { entries := [
      { timestamp := 1, message := "a", logType := "function", requestID := "r1" },
      { timestamp := 2, message := "b", logType := "function", requestID := "r2" }],
    labels := [("source", "lambda")], groupByRequestID := true }

/-- C1 counterexample: with `groupByRequestID = true` (the value the
lifecycle manager passes from `cfg.ExtractRequestID`, default true),
`ToPushRequest` on a two-request-id batch produces TWO streams and
promotes each request id to a `request_id` stream label, although the
base labels carry no such key — so bundle assembly does not always
produce a single stream, and the request id is promoted to a label. -/
theorem toPushRequest_not_always_single_stream :
    (groupedCexBatch.toPushRequest.map fun r => r.streams.length) = some 2 ∧
    (groupedCexBatch.toPushRequest.map fun r =>
        r.streams.map fun s => lookupLabel s.stream "request_id") =
      some [some "r1", some "r2"] ∧
    lookupLabel groupedCexBatch.labels "request_id" = none := by
  decide

/-- C1 (amended): with request-id grouping disabled
(`groupByRequestID = false`), `ToPushRequest` on a non-empty batch
produces exactly one stream; all entries share it in order with the
batch labels taken verbatim, so `request_id` is never promoted to a
stream label. -/
theorem toPushRequest_single_stream_when_not_grouping (b : Batch)
    (hg : b.groupByRequestID = false) (hne : b.entries ≠ []) :
    ∃ s, b.toPushRequest = some { streams := [s] } ∧
      s.stream = b.labels ∧
      s.values = b.entries.map entryValue ∧
      lookupLabel s.stream "request_id" = lookupLabel b.labels "request_id" := by
  have h0 : ¬ b.entries.length = 0 := by
    have := List.length_pos.mpr hne
    omega
  refine ⟨{ stream := b.labels, values := b.entries.map entryValue }, ?_, rfl, rfl, rfl⟩
  unfold Batch.toPushRequest
  simp [h0, hg, Batch.toSingleStreamRequest, NewPushRequest]

/-- Witness for the amended C1 at a concrete non-grouping batch. -/
theorem toPushRequest_single_stream_when_not_grouping_witness :
    ∃ s, ({ entries := [entryTiny], labels := [("source", "lambda")],
            groupByRequestID := false } : Batch).toPushRequest = some { streams := [s] } ∧
      s.stream = ([("source", "lambda")] : Labels) ∧
      s.values = [entryTiny].map entryValue ∧
      lookupLabel s.stream "request_id" =
        lookupLabel ([("source", "lambda")] : Labels) "request_id" :=
  toPushRequest_single_stream_when_not_grouping
    { entries := [entryTiny], labels := [("source", "lambda")],
      groupByRequestID := false } rfl (by decide)

/-- C2: in the single-stream bundle with request-id injection, the line
emitted at index `i` is `injectRequestID` of the entry at index `i`; for
a non-empty request id that line either begins with
`"[request_id=<id>] "` or begins with `"{\"request_id\":\"<id>\""`
(the field inserted first inside the JSON object); for an empty request
id the line is the unmodified message. -/
theorem injected_line_law (labels : Labels) (entries : List LogEntry)
    (st : Stream) (hst : st ∈ (toSingleStreamInjected labels entries).streams)
    (i : Nat) (e : LogEntry) (he : entries[i]? = some e) :
    st.values[i]? = some [formatInt (e.timestamp * 1000000),
      injectRequestID e.message e.requestID] ∧
    (e.requestID ≠ "" →
      (∃ rest, injectRequestID e.message e.requestID =
          ("[request_id=" ++ e.requestID ++ "] ") ++ rest) ∨
      (∃ rest, injectRequestID e.message e.requestID =
          ("\x7b\"request_id\":\"" ++ e.requestID ++ "\"") ++ rest)) ∧
    (e.requestID = "" → injectRequestID e.message e.requestID = e.message) := by
  refine ⟨?_, ?_, ?_⟩
  · simp only [toSingleStreamInjected, NewPushRequest, List.mem_singleton] at hst
    subst hst
    simp [List.getElem?_map, he]
  · intro hid
    unfold injectRequestID
    rw [if_neg hid]
    cases hdrop : e.message.toList.dropWhile Char.isWhitespace with
    | nil =>
        refine Or.inl ⟨e.message, ?_⟩
        simp [String.append_assoc]
    | cons c rest =>
        by_cases hc : c = Char.ofNat 123
        · refine Or.inr ⟨((if (rest.dropWhile Char.isWhitespace).head? =
              some (Char.ofNat 125) then "" else ",") ++ String.mk rest), ?_⟩
          simp [hc, String.append_assoc]
        · refine Or.inl ⟨e.message, ?_⟩
          simp [hc, String.append_assoc]
  · intro hid
    unfold injectRequestID
    rw [if_pos hid]

/-- Witness for C2 at a concrete three-entry bundle: a JSON message at
index 0 and an empty-request-id message at index 2. -/
theorem injected_line_law_witness :
    wInjStream.values[0]? = some [formatInt (wEntryJson.timestamp * 1000000),
      injectRequestID wEntryJson.message wEntryJson.requestID] ∧
    injectRequestID wEntryNoID.message wEntryNoID.requestID = wEntryNoID.message :=
  ⟨(injected_line_law [("source", "lambda")] wEntries wInjStream
      (List.mem_singleton.mpr rfl) 0 wEntryJson rfl).1,
    (injected_line_law [("source", "lambda")] wEntries wInjStream
      (List.mem_singleton.mpr rfl) 2 wEntryNoID rfl).2.2 rfl⟩

/-- In count mode (`maxBatchSizeBytes = 0`) `flushBatch` pulls exactly
`min batchSize length` head entries. -/
theorem flushBatchM_count_mode (cfg : FlushCfg) (buf : Buffer)
    (hmb : cfg.maxBatchSizeBytes = 0) (hbs : 0 ≤ cfg.batchSize) :
    flushBatchM cfg buf =
      some (((NewBatch cfg.labels cfg.extractRequestID).addEntries
          (buf.entries.take (min cfg.batchSize.toNat buf.entries.length))).toPushRequest,
        min cfg.batchSize.toNat buf.entries.length,
        { buf with
            entries := buf.entries.drop (min cfg.batchSize.toNat buf.entries.length),
            byteSize := buf.byteSize -
              sumSizes (buf.entries.take (min cfg.batchSize.toNat buf.entries.length)) }) := by
  unfold flushBatchM
  rw [if_neg (by omega)]
  rw [flush_nonneg_eq buf cfg.batchSize hbs]
  simp [List.length_take]

/-- A batch assembled from a non-empty entry list yields a request. -/
theorem toPushRequest_isSome (labels : Labels) (x : Bool) (es : List LogEntry)
    (hne : es ≠ []) :
    ∃ r, ((NewBatch labels x).addEntries es).toPushRequest = some r := by
  unfold Batch.toPushRequest
  have h0 : ¬ ((NewBatch labels x).addEntries es).entries.length = 0 := by
    simp only [NewBatch, Batch.addEntries, List.nil_append]
    have := List.length_pos.mpr hne
    omega
  rw [if_neg h0]
  by_cases hx : ¬ ((NewBatch labels x).addEntries es).groupByRequestID
  · rw [if_pos hx]
    exact ⟨_, rfl⟩
  · rw [if_neg hx]
    exact ⟨_, rfl⟩

/-- The critical-flush loop with an always-succeeding transport and a
count-mode batch rule drains exactly the snapshot: the pushed counts sum
to the initial length and the buffer ends empty. -/
theorem criticalFlushAux_drains (cfg : FlushCfg)
    (hmb : cfg.maxBatchSizeBytes = 0) (hbs : 1 ≤ cfg.batchSize) :
    ∀ (fuel : Nat) (buf : Buffer) (idx : Nat),
      buf.entries.length < fuel →
      ∃ ps bufF,
        criticalFlushAux cfg (fun _ => true) fuel (buf.entries.length : Int) idx buf =
          some (ps, bufF) ∧
        (ps.map Prod.snd).sum = buf.entries.length ∧ bufF.entries = [] := by
  intro fuel
  induction fuel with
  | zero => intro buf idx hlt; omega
  | succ fuel ih =>
      intro buf idx hlt
      by_cases h0 : buf.entries.length = 0
      · refine ⟨[], buf, ?_, by simp [h0], List.length_eq_zero.mp h0⟩
        unfold criticalFlushAux
        rw [if_pos (by omega)]
      · have hne : buf.entries ≠ [] := by
          intro hcon
          exact h0 (by simp [hcon])
        have hk1 : 1 ≤ min cfg.batchSize.toNat buf.entries.length := by omega
        obtain ⟨r, hr⟩ := toPushRequest_isSome cfg.labels cfg.extractRequestID
          (buf.entries.take (min cfg.batchSize.toNat buf.entries.length))
          (by
            intro hcon
            rw [List.take_eq_nil_iff] at hcon
            rcases hcon with hz | hn
            · omega
            · exact hne hn)
        set k := min cfg.batchSize.toNat buf.entries.length with hkdef
        set buf1 : Buffer :=
          { buf with entries := buf.entries.drop k,
                     byteSize := buf.byteSize - sumSizes (buf.entries.take k) } with hb1def
        have hlen1 : buf1.entries.length = buf.entries.length - k := by
          simp [hb1def, List.length_drop]
        obtain ⟨ps, bufF, hrec, hsum, hempty⟩ := ih buf1 (idx + 1) (by omega)
        refine ⟨(r, k) :: ps, bufF, ?_, ?_, hempty⟩
        · unfold criticalFlushAux
          rw [if_neg (by omega)]
          rw [flushBatchM_count_mode cfg buf hmb (by omega)]
          simp only [← hkdef, ← hb1def, hr]
          have hcast : (buf.entries.length : Int) - (k : Int) =
              (buf1.entries.length : Int) := by omega
          have hcast2 : ((buf.entries.length - k : Nat) : Int) =
              (buf1.entries.length : Int) := by omega
          simp only [hcast, hcast2, hrec]
          simp
        · simp only [List.map_cons, List.sum_cons, hsum, hlen1]
          omega

/-- C3: with `batch_count_limit = 10` (byte cap disabled), enqueuing 25
entries and invoking the critical flush hands the transport exactly 3
pushes carrying 10, 10 and 5 entries, and the buffer is empty afterwards;
in general the critical-flush loop pulls batches until the pre-snapshot
remaining count is exhausted (pushed counts sum to the snapshot and the
buffer drains) whenever every `PushCritical` succeeds. -/
theorem criticalFlush_push_counts (cfg : FlushCfg) (buf : Buffer)
    (hmb : cfg.maxBatchSizeBytes = 0) (hbs : 1 ≤ cfg.batchSize) :
    (∃ ps bufF, criticalFlushM cfg (fun _ => true) buf = some (ps, bufF) ∧
       (ps.map Prod.snd).sum = buf.lenQ ∧ bufF.lenQ = 0) ∧
    ((Buffer.new 100).addBatch entries25 = some buf25) ∧
    ((criticalFlushM critCfg (fun _ => true) buf25).map
        fun rb => (rb.1.map Prod.snd, rb.2.lenQ)) = some ([10, 10, 5], 0) := by
  refine ⟨?_, by decide, by decide⟩
  obtain ⟨ps, bufF, hrun, hsum, hempty⟩ :=
    criticalFlushAux_drains cfg hmb hbs (buf.lenQ + 1) buf 0 (by simp [Buffer.lenQ])
  exact ⟨ps, bufF, hrun, hsum, by simp [Buffer.lenQ, hempty]⟩

/-- Witness for C3: the general drain statement applied to the concrete
25-entry buffer with `batch_count_limit = 10`. -/
theorem criticalFlush_push_counts_witness :
    ∃ ps bufF, criticalFlushM critCfg (fun _ => true) buf25 = some (ps, bufF) ∧
      (ps.map Prod.snd).sum = buf25.lenQ ∧ bufF.lenQ = 0 :=
  (criticalFlush_push_counts critCfg buf25 rfl (by decide)).1

/-- Attempt counting of the retry loop: at most `fuel` further attempts
happen. -/
theorem pushAttempts_le (sink : Nat → SinkResp) (r : Nat) :
    ∀ (fuel a : Nat) (m : String), (pushAttempts sink r fuel a m).2 ≤ a + fuel := by
  intro fuel
  induction fuel with
  | zero => intro a m; simp [pushAttempts]
  | succ fuel ih =>
      intro a m
      unfold pushAttempts
      cases doPush (sink a) with
      | none => simp
      | some err =>
          cases err with
          | terminal t => simp
          | retryable t =>
              have := ih (a + 1) t
              simp only
              omega

/-- One retryable response advances the loop by one attempt. -/
theorem pushAttempts_step (sink : Nat → SinkResp) (r fuel a : Nat) (m m0 : String)
    (h : doPush (sink a) = some (PushErr.retryable m0)) :
    pushAttempts sink r (fuel + 1) a m = pushAttempts sink r fuel (a + 1) m0 := by
  conv_lhs => unfold pushAttempts
  rw [h]

/-- Stepping the retry loop over a prefix of retryable attempts:
after `i` retryable responses the loop is at attempt `a + i`, with the
last retryable message as the pending cause. -/
theorem pushAttempts_skip_retryable (sink : Nat → SinkResp) (r : Nat) :
    ∀ (i a fuel : Nat) (m : String),
      (∀ j, j < i → ∃ mj, doPush (sink (a + j)) = some (PushErr.retryable mj)) →
      ∃ m1, pushAttempts sink r (i + fuel) a m = pushAttempts sink r fuel (a + i) m1 ∧
        (i = 0 → m1 = m) ∧
        (∀ mlast, 0 < i → doPush (sink (a + i - 1)) = some (PushErr.retryable mlast) →
          m1 = mlast) := by
  intro i
  induction i with
  | zero =>
      intro a fuel m _
      exact ⟨m, by simp, fun _ => rfl, fun mlast h0 _ => absurd h0 (by omega)⟩
  | succ i ih =>
      intro a fuel m hretry
      obtain ⟨m0, hm0⟩ := hretry 0 (by omega)
      simp only [Nat.add_zero] at hm0
      have hstep : pushAttempts sink r (i + 1 + fuel) a m =
          pushAttempts sink r (i + fuel) (a + 1) m0 := by
        have h1 : i + 1 + fuel = (i + fuel) + 1 := by omega
        rw [h1]
        exact pushAttempts_step sink r (i + fuel) a m m0 hm0
      obtain ⟨m1, hrec, hzero, hlast⟩ := ih (a + 1) fuel m0 (by
        intro j hj
        have := hretry (j + 1) (by omega)
        simpa [Nat.add_assoc, Nat.add_comm 1 j] using this)
      refine ⟨m1, ?_, fun hcon => absurd hcon (by omega), ?_⟩
      · rw [hstep, hrec]
        congr 1
        omega
      · intro mlast _ hml
        by_cases hi : i = 0
        · subst hi
          have hzz : m1 = m0 := hzero rfl
          rw [hzz]
          simp only [Nat.add_sub_cancel] at hml
          rw [hm0] at hml
          injection hml with h
          injection h
        · refine hlast mlast (by omega) ?_
          have harith : a + 1 + i - 1 = a + (i + 1) - 1 := by omega
          rw [harith]
          exact hml

/-- C4: `Push` and `PushCritical` run the retry loop at the configured
tier's budget, making at most `1 + retries` attempts.  `doPush`
classification: transport errors, 429 and ≥ 500 are retryable, any other
non-2xx status is terminal, 2xx succeeds.  A terminal response at attempt
`i` (after `i` retryable ones) stops immediately with that error after
`i + 1` attempts; a 2xx at attempt `i` succeeds after `i + 1` attempts;
if every available attempt is retryable the loop stops after exactly
`1 + retries` attempts with an error naming the retry budget
(`"push failed after <retries> retries: "`) wrapping the last cause. -/
theorem push_retry_classification (cfg : ClientCfg) (sink : Nat → SinkResp)
    (isCritical : Bool) (req : PushRequest) (c i : Nat) (mlast : String)
    (hne : req.streams.length ≠ 0) :
    (clientPush cfg (some req) sink isCritical =
      pushAttempts sink (if isCritical then cfg.criticalRetries else cfg.maxRetries)
        ((if isCritical then cfg.criticalRetries else cfg.maxRetries) + 1) 0 "") ∧
    ((clientPush cfg (some req) sink isCritical).2 ≤
      (if isCritical then cfg.criticalRetries else cfg.maxRetries) + 1) ∧
    (doPush SinkResp.transportErr = some (PushErr.retryable "request failed")) ∧
    (200 ≤ c ∧ c < 300 → doPush (SinkResp.status c) = none) ∧
    (¬ (200 ≤ c ∧ c < 300) → (c = 429 ∨ 500 ≤ c) →
      doPush (SinkResp.status c) = some (PushErr.retryable (statusMsg c))) ∧
    (¬ (200 ≤ c ∧ c < 300) → ¬ (c = 429 ∨ 500 ≤ c) →
      doPush (SinkResp.status c) = some (PushErr.terminal (statusMsg c))) ∧
    (∀ retries : Nat,
      (∀ j, j < i → ∃ mj, doPush (sink j) = some (PushErr.retryable mj)) →
      i ≤ retries →
      (doPush (sink i) = none →
        pushAttempts sink retries (retries + 1) 0 "" = (PushOutcome.ok, i + 1)) ∧
      (∀ t, doPush (sink i) = some (PushErr.terminal t) →
        pushAttempts sink retries (retries + 1) 0 "" = (PushOutcome.err t, i + 1))) ∧
    (∀ retries : Nat,
      (∀ j, j < retries + 1 → ∃ mj, doPush (sink j) = some (PushErr.retryable mj)) →
      doPush (sink retries) = some (PushErr.retryable mlast) →
      pushAttempts sink retries (retries + 1) 0 "" =
        (PushOutcome.err ("push failed after " ++ Nat.repr retries ++ " retries: " ++
          mlast), retries + 1)) := by
  refine ⟨?_, ?_, rfl, ?_, ?_, ?_, ?_, ?_⟩
  · simp only [clientPush]
    rw [if_neg hne]
  · simp only [clientPush]
    rw [if_neg hne]
    have := pushAttempts_le sink
      (if isCritical then cfg.criticalRetries else cfg.maxRetries)
      ((if isCritical then cfg.criticalRetries else cfg.maxRetries) + 1) 0 ""
    omega
  · intro hc
    simp only [doPush]
    rw [if_pos hc]
  · intro hc hcr
    simp only [doPush]
    rw [if_neg hc, if_pos hcr]
  · intro hc hcr
    simp only [doPush]
    rw [if_neg hc, if_neg hcr]
  · intro retries hpre hle
    obtain ⟨m1, hskip, -, -⟩ := pushAttempts_skip_retryable sink retries i 0
      (retries + 1 - i) "" (by simpa using hpre)
    have hfuel : i + (retries + 1 - i) = retries + 1 := by omega
    rw [hfuel] at hskip
    constructor
    · intro hok
      rw [hskip]
      have hsplit : retries + 1 - i = (retries - i) + 1 := by omega
      rw [hsplit]
      conv_lhs => unfold pushAttempts
      simp only [Nat.zero_add]
      rw [hok]
    · intro t hterm
      rw [hskip]
      have hsplit : retries + 1 - i = (retries - i) + 1 := by omega
      rw [hsplit]
      conv_lhs => unfold pushAttempts
      simp only [Nat.zero_add]
      rw [hterm]
  · intro retries hpre hml
    obtain ⟨m1, hskip, -, hlast⟩ := pushAttempts_skip_retryable sink retries
      (retries + 1) 0 0 "" (by simpa using hpre)
    have hm1 : m1 = mlast := by
      refine hlast mlast (by omega) ?_
      simpa using hml
    rw [hskip, hm1]
    simp [pushAttempts]

/-- Witness for C4 at concrete sinks: 500-then-200 succeeds after 2
attempts; constant 400 errs after 1 attempt; constant 500 with
`regular_retries = 3` makes 4 attempts and reports "3 retries" wrapping
the status-500 cause. -/
theorem push_retry_classification_witness :
    pushAttempts sink500then200 3 4 0 "" = (PushOutcome.ok, 2) ∧
    pushAttempts sink400 3 4 0 "" = (PushOutcome.err (statusMsg 400), 1) ∧
    pushAttempts sink500 3 4 0 "" =
      (PushOutcome.err ("push failed after " ++ Nat.repr 3 ++ " retries: " ++
        statusMsg 500), 4) ∧
    clientPush wClientCfg (some wPushReq) sink500then200 false =
      pushAttempts sink500then200 3 4 0 "" := by
  refine ⟨?_, ?_, ?_, ?_⟩
  · exact ((push_retry_classification wClientCfg sink500then200 false wPushReq 0 1
      "" (by decide)).2.2.2.2.2.2.1 3
      (fun j hj => ⟨statusMsg 500, by
        have hj0 : j = 0 := by omega
        subst hj0
        rfl⟩)
      (by omega)).1 rfl
  · exact ((push_retry_classification wClientCfg sink400 false wPushReq 0 0
      "" (by decide)).2.2.2.2.2.2.1 3
      (fun j hj => absurd hj (by omega)) (by omega)).2 (statusMsg 400) rfl
  · exact (push_retry_classification wClientCfg sink500 false wPushReq 0 0
      (statusMsg 500) (by decide)).2.2.2.2.2.2.2 3
      (fun j hj => ⟨statusMsg 500, rfl⟩) rfl
  · exact (push_retry_classification wClientCfg sink500then200 false wPushReq 0 0
      "" (by decide)).1

/-- Length of the chunking loop's output: one chunk per `e + 1`
characters, rounded up. -/
theorem splitChunksAux_length (e n : Nat) :
    ∀ (fuel : Nat) (l : List Char) (k : Nat), l.length ≤ fuel →
      (splitChunksAux e n fuel l k).length = (l.length + e) / (e + 1) := by
  intro fuel
  induction fuel with
  | zero =>
      intro l k hle
      have hl : l = [] := List.length_eq_zero.mp (by omega)
      subst hl
      simp [splitChunksAux, Nat.div_eq_of_lt (by omega : e < e + 1)]
  | succ fuel ih =>
      intro l k hle
      cases l with
      | nil => simp [splitChunksAux, Nat.div_eq_of_lt (by omega : e < e + 1)]
      | cons c rest =>
          simp only [splitChunksAux, List.length_cons, List.drop_succ_cons]
          rw [ih (rest.drop e) (k + 1) (by
            simp only [List.length_cons] at hle
            simp only [List.length_drop]
            omega)]
          simp only [List.length_drop]
          have hB : (rest.length + 1 + e) / (e + 1) = rest.length / (e + 1) + 1 := by
            rw [show rest.length + 1 + e = rest.length + (e + 1) from by omega,
              Nat.add_div_right _ (by omega)]
          by_cases hcase : rest.length ≤ e
          · have hA : (rest.length - e + e) / (e + 1) = 0 :=
              Nat.div_eq_of_lt (by omega)
            have hC : rest.length / (e + 1) = 0 :=
              Nat.div_eq_of_lt (by omega)
            omega
          · have h1 : rest.length - e + e = rest.length := by omega
            rw [h1]
            omega

/-- The `j`-th chunk of the chunking loop: marker `k + j` followed by the
`j`-th slice of `e + 1` characters. -/
theorem splitChunksAux_get (e n : Nat) :
    ∀ (fuel : Nat) (l : List Char) (k j : Nat), l.length ≤ fuel →
      (splitChunksAux e n fuel l k)[j]? =
        if l.drop (j * (e + 1)) = [] then none
        else some (chunkMarker (k + j) n ((l.drop (j * (e + 1))).take (e + 1))) := by
  intro fuel
  induction fuel with
  | zero =>
      intro l k j hle
      have hl : l = [] := List.length_eq_zero.mp (by omega)
      subst hl
      simp [splitChunksAux]
  | succ fuel ih =>
      intro l k j hle
      cases l with
      | nil => simp [splitChunksAux]
      | cons c rest =>
          cases j with
          | zero =>
              simp only [splitChunksAux, Nat.zero_mul, List.drop_zero,
                List.getElem?_cons_zero]
              rw [if_neg (by simp)]
              simp
          | succ j =>
              simp only [splitChunksAux, List.getElem?_cons_succ,
                List.drop_succ_cons]
              rw [ih (rest.drop e) (k + 1) j (by
                simp only [List.length_cons] at hle
                simp only [List.length_drop]
                omega)]
              have hdd : (rest.drop e).drop (j * (e + 1)) =
                  rest.drop (e + j * (e + 1)) := by
                rw [List.drop_drop]
              have hmul : e + j * (e + 1) + 1 = (j + 1) * (e + 1) := by ring
              have hdrop2 : (c :: rest).drop ((j + 1) * (e + 1)) =
                  rest.drop (e + j * (e + 1)) := by
                rw [← hmul]
                simp [List.drop_succ_cons]
              have hk : k + 1 + j = k + (j + 1) := by omega
              rw [hdd, hdrop2, hk]

/-- C7: with `line_split_bytes = L > 0` and a message of length `m > L`,
the receiver emits exactly `⌈m / max(100, L−20)⌉` entries; the `k`-th
entry's message is `"[chunk k/N] "` followed by the `k`-th slice of the
original message, and the timestamps are the base timestamp plus
`0, 1, 2, …` — strictly increasing by 1 per chunk so order is
preserved. -/
theorem receiver_splits_oversized_lines (L ts : Int) (ty rid message : String)
    (hL : 0 < L) (hm : (message.length : Int) > L) :
    ((receiverEntries L ts ty rid message).length =
      (message.length + (max 100 (L - 20)).toNat - 1) / (max 100 (L - 20)).toNat) ∧
    (∀ j, j < (receiverEntries L ts ty rid message).length →
      (receiverEntries L ts ty rid message)[j]? =
        (some { timestamp := ts + (j : Int),
                message := chunkMarker (1 + j) (receiverEntries L ts ty rid message).length
                  ((message.toList.drop (j * (max 100 (L - 20)).toNat)).take
                    (max 100 (L - 20)).toNat),
                logType := ty, requestID := rid } : Option LogEntry)) ∧
    (∀ j e1 e2, (receiverEntries L ts ty rid message)[j]? = some e1 →
      (receiverEntries L ts ty rid message)[j + 1]? = some e2 →
      e2.timestamp = e1.timestamp + 1) := by
  have hcond : L > 0 ∧ (message.length : Int) > L := ⟨hL, hm⟩
  have heffdef : (if L - 20 < 100 then (100 : Int) else L - 20).toNat =
      (max 100 (L - 20)).toNat := by
    rw [Int.max_def]
    split_ifs <;> omega
  have heff100 : 100 ≤ (max (100 : Int) (L - 20)).toNat := by
    have : (100 : Int) ≤ max 100 (L - 20) := le_max_left _ _
    omega
  set eff : Nat := (max (100 : Int) (L - 20)).toNat with heff
  have hsplitm : splitMessage message L =
      splitChunksAux (eff - 1) ((message.length + eff - 1) / eff)
        message.toList.length message.toList 1 := by
    unfold splitMessage
    rw [if_neg (by omega)]
    simp only [splitChunks, heffdef]
  have hlenlist : message.toList.length = message.length := rfl
  have hone : eff - 1 + 1 = eff := by omega
  have hlen : (splitMessage message L).length =
      (message.length + eff - 1) / eff := by
    rw [hsplitm, splitChunksAux_length (eff - 1) _ _ _ 1 (le_refl _)]
    rw [hone, hlenlist]
    congr 1
    omega
  have hrcv : receiverEntries L ts ty rid message =
      (splitMessage message L).enum.map fun ic =>
        { timestamp := ts + (ic.1 : Int), message := ic.2,
          logType := ty, requestID := rid } := by
    unfold receiverEntries
    rw [if_pos hcond]
  have hrlen : (receiverEntries L ts ty rid message).length =
      (splitMessage message L).length := by
    rw [hrcv]
    simp
  have hget : ∀ (j : Nat), (receiverEntries L ts ty rid message)[j]? =
      ((splitMessage message L)[j]?).map fun chunk =>
        ({ timestamp := ts + (j : Int), message := chunk,
           logType := ty, requestID := rid } : LogEntry) := by
    intro j
    rw [hrcv]
    rw [List.getElem?_map, List.getElem?_enum]
    cases (splitMessage message L)[j]? <;> simp
  have hchunk : ∀ j, j < (splitMessage message L).length →
      (splitMessage message L)[j]? =
        some (chunkMarker (1 + j) ((message.length + eff - 1) / eff)
          ((message.toList.drop (j * eff)).take eff)) := by
    intro j hj
    have hjlen : j * eff < message.toList.length := by
      rw [hlen] at hj
      by_contra hcon
      push_neg at hcon
      have h1 : message.length + eff - 1 ≤ (eff - 1) + j * eff := by
        rw [← hlenlist]
        omega
      have h2 : ((eff - 1) + j * eff) / eff = j := by
        rw [Nat.add_mul_div_right _ _ (by omega : 0 < eff),
          Nat.div_eq_of_lt (by omega : eff - 1 < eff)]
        omega
      have h3 : (message.length + eff - 1) / eff ≤ j := by
        calc (message.length + eff - 1) / eff
            ≤ ((eff - 1) + j * eff) / eff := Nat.div_le_div_right h1
          _ = j := h2
      omega
    rw [hsplitm]
    rw [splitChunksAux_get (eff - 1) _ _ _ 1 j (le_refl _), hone]
    rw [if_neg (by
      intro hnil
      have hlnil := congrArg List.length hnil
      simp only [List.length_drop, List.length_nil] at hlnil
      omega)]
  have hlen2 : (receiverEntries L ts ty rid message).length =
      (message.length + eff - 1) / eff := hrlen.trans hlen
  refine ⟨?_, ?_, ?_⟩
  · rw [hlen2]
  · intro j hj
    rw [hlen2, hget j]
    rw [hrlen] at hj
    rw [hchunk j hj]
    simp
  · intro j e1 e2 h1 h2
    rw [hget j] at h1
    rw [hget (j + 1)] at h2
    cases hc1 : (splitMessage message L)[j]? with
    | none => rw [hc1] at h1; simp at h1
    | some c1 =>
        rw [hc1] at h1
        simp only [Option.map_some', Option.some.injEq] at h1
        cases hc2 : (splitMessage message L)[j + 1]? with
        | none => rw [hc2] at h2; simp at h2
        | some c2 =>
            rw [hc2] at h2
            simp only [Option.map_some', Option.some.injEq] at h2
            rw [← h1, ← h2]
            push_cast
            ring

set_option maxRecDepth 200000 in
/-- Witness for C7 at a concrete input: a 250-character message with
`line_split_bytes = 100` (effective chunk size 100) yields 3 chunks. -/
theorem receiver_splits_oversized_lines_witness :
    ((receiverEntries 100 5 "function" "" msg250).length =
      (msg250.length + (max 100 ((100 : Int) - 20)).toNat - 1) /
        (max 100 ((100 : Int) - 20)).toNat) ∧
    (receiverEntries 100 5 "function" "" msg250)[0]? =
      (some { timestamp := 5 + ((0 : Nat) : Int),
              message := chunkMarker (1 + 0) (receiverEntries 100 5 "function" "" msg250).length
                ((msg250.toList.drop (0 * (max 100 ((100 : Int) - 20)).toNat)).take
                  (max 100 ((100 : Int) - 20)).toNat),
              logType := "function", requestID := "" } : Option LogEntry) :=
  ⟨(receiver_splits_oversized_lines 100 5 "function" "" msg250 (by decide)
      (by decide)).1,
    (receiver_splits_oversized_lines 100 5 "function" "" msg250 (by decide)
      (by decide)).2.1 0 (by decide)⟩

/-- C8: for a telemetry record at a valid instant (`sec` Unix seconds
plus `nsec < 10⁹` nanoseconds), the receiver's `parseTimestamp` yields
that instant as integer milliseconds since the epoch
(`⌊ns / 10⁶⌋`, i.e. Go's `t.UnixMilli()`), the entry enqueued for the
record carries exactly that value, and bundle assembly puts on the wire
the decimal string of `entry.timestamp · 10⁶`. -/
theorem timestamp_millis_and_wire_nanos (sec : Int) (nsec : Nat)
    (_hval : nsec < 1000000000) :
    (parseTimestampMilli sec nsec = (sec * 1000000000 + (nsec : Int)) / 1000000) ∧
    (∀ ty rid msg, receiverEntries 0 (parseTimestampMilli sec nsec) ty rid msg =
      [{ timestamp := (sec * 1000000000 + (nsec : Int)) / 1000000,
         message := msg, logType := ty, requestID := rid }]) ∧
    (∀ (labels : Labels) (entries : List LogEntry) (i : Nat) (e : LogEntry),
      entries[i]? = some e →
      ∃ st, ((NewBatch labels false).addEntries entries).toSingleStreamRequest =
          { streams := [st] } ∧
        st.values[i]? = some [formatInt (e.timestamp * 1000000), e.message]) := by
  have hms : parseTimestampMilli sec nsec =
      (sec * 1000000000 + (nsec : Int)) / 1000000 := by
    unfold parseTimestampMilli
    have harr : sec * 1000000000 + (nsec : Int) =
        (nsec : Int) + 1000000 * (sec * 1000) := by ring
    rw [harr, Int.add_mul_ediv_left (nsec : Int) (sec * 1000) (by omega)]
    omega
  refine ⟨hms, ?_, ?_⟩
  · intro ty rid msg
    unfold receiverEntries
    rw [if_neg (by omega)]
    rw [hms]
  · intro labels entries i e he
    refine ⟨{ stream := labels, values := entries.map entryValue }, rfl, ?_⟩
    simp [List.getElem?_map, he, entryValue]

/-- Witness for C8 at a concrete instant (2026-02-05T21:34:18.205123456Z
is 1770327258 s + 205123456 ns; UnixMilli = 1770327258205) and a
concrete one-entry batch. -/
theorem timestamp_millis_and_wire_nanos_witness :
    (parseTimestampMilli 1770327258 205123456 =
      ((1770327258 : Int) * 1000000000 + (205123456 : Nat)) / 1000000) ∧
    (∃ st, ((NewBatch [("source", "lambda")] false).addEntries [entryTiny]).toSingleStreamRequest =
        { streams := [st] } ∧
      st.values[0]? = some [formatInt (entryTiny.timestamp * 1000000),
        entryTiny.message]) :=
  ⟨(timestamp_millis_and_wire_nanos 1770327258 205123456 (by omega)).1,
    (timestamp_millis_and_wire_nanos 1770327258 205123456 (by omega)).2.2
      [("source", "lambda")] [entryTiny] 0 entryTiny rfl⟩

/-- C9 counterexample: with the required `LOKI_URL` present but a set,
unparsable `LOKI_LABELS`, `Load` returns an error instead of silently
falling back — so `Load` does error on an input whose required option is
present. -/
theorem load_errors_on_invalid_labels :
    loadIsOk (Load cexEnv) = false ∧
    cexEnv "LOKI_URL" = "https://loki.example.com" := by
  decide

/-- C9 (amended): numeric and boolean options fall back to their
defaults silently on unset or unparsable values; the labels map is the
exception — `Load` returns an error exactly when `LOKI_LABELS` is set
but does not unmarshal; and `Load` itself never errors for a missing
option (the required-endpoint check lives in the caller, after `Load`
returns). -/
theorem load_fallbacks_and_labels_exception (env : String → String)
    (key : String) (d : Int) (db : Bool) :
    (goAtoi (env key) = none → getEnvInt env key d = d) ∧
    (goParseBool (env key) = none → getEnvBool env key db = db) ∧
    ((Load env).toOption = none ↔
      env "LOKI_LABELS" ≠ "" ∧ parseLabelsJson (env "LOKI_LABELS") = none) ∧
    (env "LOKI_LABELS" = "" → (Load env).toOption ≠ none) := by
  refine ⟨?_, ?_, ?_, ?_⟩
  · intro ha
    unfold getEnvInt
    split_ifs with h
    · rfl
    · rw [ha]
  · intro hb
    unfold getEnvBool
    split_ifs with h
    · rfl
    · rw [hb]
  · by_cases hl : env "LOKI_LABELS" = ""
    · simp [Load, hl, Except.map, Except.toOption]
    · cases hp : parseLabelsJson (env "LOKI_LABELS") with
      | none => simp [Load, hl, hp, Except.map, Except.toOption]
      | some ls => simp [Load, hl, hp, Except.map, Except.toOption]
  · intro hl
    simp [Load, hl, Except.map, Except.toOption]

/-- Witness for C9 at the concrete fallback environment: an unparsable
`LOKI_BATCH_SIZE` yields the default 100 and an unparsable
`LOKI_ENABLE_GZIP` yields the default `true`; that environment's `Load`
does not error. -/
theorem load_fallbacks_and_labels_exception_witness :
    (getEnvInt fallbackEnv "LOKI_BATCH_SIZE" 100 = 100) ∧
    (getEnvBool fallbackEnv "LOKI_ENABLE_GZIP" true = true) ∧
    (Load fallbackEnv).toOption ≠ none :=
  ⟨(load_fallbacks_and_labels_exception fallbackEnv "LOKI_BATCH_SIZE" 100 true).1
      (by decide),
    (load_fallbacks_and_labels_exception fallbackEnv "LOKI_ENABLE_GZIP" 100 true).2.1
      (by decide),
    (load_fallbacks_and_labels_exception fallbackEnv "X" 0 true).2.2.2 rfl⟩

end LambdaWatch
